import Mathlib

/-!
Verification of the schedule-expression parser and time-matching engine of
EC2InstanceScheduler.py (functions `_range`, `_parse_field`, `_parse_schedule`,
`_scheduled`).  Strings are embedded as `List Char`; Python exceptions
(ValueError, TypeError, KeyError) are embedded as `none` in `Option`.
-/

namespace EC2Sched

/-- Python 2 `str.lower` on an ASCII character: map A-Z to a-z (spelled out
letter by letter, which is the same function as adding 32 to the code point
of an uppercase letter), and leave every other character unchanged. -/
def pyLowerChar (c : Char) : Char :=
  if c = 'A' then 'a' else if c = 'B' then 'b' else if c = 'C' then 'c'
  else if c = 'D' then 'd' else if c = 'E' then 'e' else if c = 'F' then 'f'
  else if c = 'G' then 'g' else if c = 'H' then 'h' else if c = 'I' then 'i'
  else if c = 'J' then 'j' else if c = 'K' then 'k' else if c = 'L' then 'l'
  else if c = 'M' then 'm' else if c = 'N' then 'n' else if c = 'O' then 'o'
  else if c = 'P' then 'p' else if c = 'Q' then 'q' else if c = 'R' then 'r'
  else if c = 'S' then 's' else if c = 'T' then 't' else if c = 'U' then 'u'
  else if c = 'V' then 'v' else if c = 'W' then 'w' else if c = 'X' then 'x'
  else if c = 'Y' then 'y' else if c = 'Z' then 'z' else c

/-- Python 2 `str.lower` on a byte string. -/
def pyLower (s : List Char) : List Char := s.map pyLowerChar

/-- Python `str.split(sep)` with an explicit one-character separator:
split on every occurrence of `sep`, keeping empty parts
(so `''.split(' ') == ['']` and `'a  b'.split(' ') == ['a','','b']`). -/
def pySplit (sep : Char) : List Char → List (List Char)
  | [] => [[]]
  | c :: cs =>
    if c = sep then [] :: pySplit sep cs
    else
      match pySplit sep cs with
      | [] => [[c]]
      | t :: ts => (c :: t) :: ts

/-- Python `field.replace('*', max)`: replace every occurrence of the single
character `*` by the string `max`, left to right. -/
def replaceStar (max : List Char) : List Char → List Char
  | [] => []
  | c :: cs => if c = '*' then max ++ replaceStar max cs else c :: replaceStar max cs

/-- The translation table `T` (maketrans of dash and slash to spaces) applied
to one character: both `-` and `/` become a space, the rest is unchanged. -/
def trChar (c : Char) : Char :=
  if c = '-' ∨ c = '/' then ' ' else c

/-- Python 2 `string.translate(s, T)` with the table `T` above. -/
def translateT (s : List Char) : List Char := s.map trChar

/-- Characters Python 2 `int()` strips from both ends of its argument. -/
def isPyWhitespace (c : Char) : Bool :=
  c = ' ' || c = '\t' || c = '\n' || c = '\x0d' || c = '\x0b' || c = '\x0c'

/-- Strip Python whitespace from both ends of a string. -/
def stripWs (s : List Char) : List Char :=
  ((s.dropWhile isPyWhitespace).reverse.dropWhile isPyWhitespace).reverse

/-- Value of a non-empty all-digit string in base 10; `none` otherwise. -/
def digitsVal (s : List Char) : Option Nat :=
  if s ≠ [] ∧ s.all Char.isDigit then
    some (s.foldl (fun a c => a * 10 + (c.toNat - 48)) 0)
  else none

/-- Python 2 `int(s)`: strip whitespace, optional single sign, then a
non-empty run of decimal digits; anything else raises ValueError (`none`). -/
def pyInt (s : List Char) : Option Int :=
  if stripWs s = [] then none
  else if (stripWs s).head? = some '+' then (digitsVal (stripWs s).tail).map Int.ofNat
  else if (stripWs s).head? = some '-' then
    (digitsVal (stripWs s).tail).map (fun n => -(n : Int))
  else (digitsVal (stripWs s)).map Int.ofNat

/-- Number of elements of Python `range(start, stop, step)` (`step ≠ 0`). -/
def pyRangeLen (start stop step : Int) : Nat :=
  if 0 < step then (stop - start + step - 1).toNat / step.toNat
  else (start - stop - step - 1).toNat / (-step).toNat

/-- Python `range(start, stop, step)` as the list
`[start, start+step, ...]` of length `pyRangeLen start stop step`. -/
def pyRangeList (start stop step : Int) : List Int :=
  (List.range (pyRangeLen start stop step)).map (fun (i : Nat) => start + step * (i : Int))

/-- The source's `_range(start, stop=None, step=1)` applied (as in
`_parse_field`) to the splat of a list of string arguments: with one argument
`range(int(a), int(a)+1, 1)`; with two, `range(int(a), int(b)+1, 1)`; with
three, `range(int(a), int(b)+1, int(c))`; any other arity is a TypeError, a
non-integer argument a ValueError, and step 0 a ValueError from `range`. -/
def pyRangeCall (args : List (List Char)) : Option (List Int) :=
  match args with
  | [a] => do
      let s ← pyInt a
      some (pyRangeList s (s + 1) 1)
  | [a, b] => do
      let s ← pyInt a
      let t ← pyInt b
      some (pyRangeList s (t + 1) 1)
  | [a, b, c] => do
      let s ← pyInt a
      let t ← pyInt b
      let st ← pyInt c
      if st = 0 then none else some (pyRangeList s (t + 1) st)
  | _ => none

/-- A Python list comprehension `[g x for x in l]` in which `g` may raise:
the first exception aborts the whole comprehension. -/
def mapOpt (g : α → Option β) : List α → Option (List β)
  | [] => some []
  | x :: xs => do
      let y ← g x
      let ys ← mapOpt g xs
      some (y :: ys)

/-- The source's `_parse_field(field, max)`: replace `*` by `max`, split on
commas, translate `-` and `/` to spaces, split each element on spaces, feed
the pieces to `_range`, and flatten the resulting list of lists. -/
def parse_field (field max : List Char) : Option (List Int) :=
  (mapOpt (fun e => pyRangeCall (pySplit ' ' (translateT e)))
    (pySplit ',' (replaceStar max field))).map List.flatten

/-- The source's `months` table: exact whole-field lookup of a lowercase
three-letter month name. -/
def monthSubst (m : List Char) : List Char :=
  if m = "jan".toList then "1".toList
  else if m = "feb".toList then "2".toList
  else if m = "mar".toList then "3".toList
  else if m = "apr".toList then "4".toList
  else if m = "may".toList then "5".toList
  else if m = "jun".toList then "6".toList
  else if m = "jul".toList then "7".toList
  else if m = "aug".toList then "8".toList
  else if m = "sep".toList then "9".toList
  else if m = "oct".toList then "10".toList
  else if m = "nov".toList then "11".toList
  else if m = "dec".toList then "12".toList
  else m

/-- The source's `weekdays` table: `sun` is `0`, `mon` is `1`, …, `sat` is `6`. -/
def weekdaySubst (w : List Char) : List Char :=
  if w = "sun".toList then "0".toList
  else if w = "mon".toList then "1".toList
  else if w = "tue".toList then "2".toList
  else if w = "wed".toList then "3".toList
  else if w = "thu".toList then "4".toList
  else if w = "fri".toList then "5".toList
  else if w = "sat".toList then "6".toList
  else w

/-- A compiled schedule: the five lists built by `_parse_schedule`. -/
structure Schedule where
  minute : List Int
  hour : List Int
  day : List Int
  month : List Int
  weekday : List Int
deriving DecidableEq

/-- The non-alias body of `_parse_schedule`: split the (already lowercased)
schedule on single spaces into exactly five fields — any other count is a
ValueError from tuple unpacking — substitute month and weekday names, and
parse each field against its bound. -/
def parse_fields (s : List Char) : Option Schedule :=
  match pySplit ' ' s with
  | [minute, hour, day, month, weekday] => do
      let mi ← parse_field minute ("0-59".toList)
      let h ← parse_field hour ("0-23".toList)
      let d ← parse_field day ("1-31".toList)
      let mo ← parse_field (monthSubst month) ("1-12".toList)
      let w ← parse_field (weekdaySubst weekday) ("0-6".toList)
      some ⟨mi, h, d, mo, w⟩
  | _ => none

/-- Recognition of the special `@` aliases, applied after lowercasing. -/
def isAlias (s : List Char) : Bool :=
  s = "@yearly".toList || s = "@annually".toList || s = "@monthly".toList ||
  s = "@weekly".toList || s = "@daily".toList || s = "@midnight".toList ||
  s = "@hourly".toList || s = "@every_minute".toList

/-- The source's `_parse_schedule(schedule)`: lowercase, expand an alias to
its canonical five-field form, then parse the five fields.  The source
re-enters `_parse_schedule` on the canonical form; since every canonical form
is lowercase and not itself an alias, that recursive call reduces to the
five-field body `parse_fields`, which is what is written here. -/
def parse_schedule (schedule : List Char) : Option Schedule :=
  let s := pyLower schedule
  if s = "@yearly".toList ∨ s = "@annually".toList then parse_fields ("0 0 1 1 *".toList)
  else if s = "@monthly".toList then parse_fields ("0 0 1 * *".toList)
  else if s = "@weekly".toList then parse_fields ("0 0 * * 0".toList)
  else if s = "@daily".toList ∨ s = "@midnight".toList then parse_fields ("0 0 * * *".toList)
  else if s = "@hourly".toList then parse_fields ("0 * * * *".toList)
  else if s = "@every_minute".toList then parse_fields ("*/1 * * * *".toList)
  else parse_fields s

/-- A reference timestamp, as `_scheduled` reads it from a `datetime`:
minute, hour, day of month, month, and the ISO weekday (Monday=1 … Sunday=7).
`datetime.weekday()` is always `isoweekday() - 1`. -/
structure Timestamp where
  minute : Int
  hour : Int
  day : Int
  month : Int
  isoWd : Int
deriving DecidableEq

/-- `t.isoweekday()`: Monday=1 … Sunday=7. -/
def Timestamp.isoweekday (t : Timestamp) : Int := t.isoWd

/-- `t.weekday()`: Monday=0 … Sunday=6, i.e. `isoweekday() - 1`. -/
def Timestamp.pyWeekday (t : Timestamp) : Int := t.isoWd - 1

/-- The source's `_scheduled(t, s)`: parse the schedule (propagating any
parse exception as `none`) and test the conjunction of the five memberships,
using `t.isoweekday()` for the weekday test when the compiled weekday list
contains 7 and `t.weekday()` otherwise. -/
def scheduled (t : Timestamp) (s : List Char) : Option Bool :=
  (parse_schedule s).map (fun sch =>
    sch.minute.contains t.minute &&
    sch.hour.contains t.hour &&
    sch.day.contains t.day &&
    sch.month.contains t.month &&
    (if sch.weekday.contains 7 then sch.weekday.contains t.isoweekday
     else sch.weekday.contains t.pyWeekday))

/-- Replacing every slash by a dash in a string, character by character. -/
def slashToDash (c : Char) : Char := if c = '/' then '-' else c

/-- One numeric token of a range-element parses and its value lies in the
inclusive interval from `lo` to `hi`. -/
def tokInRange (lo hi : Int) (tok : List Char) : Bool :=
  match pyInt tok with
  | some v => lo ≤ v && v ≤ hi
  | none => false

/-- The token list of one range-element is ordered: whenever it has the
two-token or three-token shape and the first two tokens parse, the first
value is at most the second (the code reads them as range start and stop). -/
def elemOrdered (toks : List (List Char)) : Bool :=
  match toks with
  | [a, b] =>
    match pyInt a, pyInt b with
    | some va, some vb => va ≤ vb
    | _, _ => true
  | [a, b, _] =>
    match pyInt a, pyInt b with
    | some va, some vb => va ≤ vb
    | _, _ => true
  | _ => true

/-- 2024-03-15 02:30 UTC, a Friday: `isoweekday()` is 5, `weekday()` is 4. -/
def fridayT : Timestamp := ⟨30, 2, 15, 3, 5⟩

/-- 2024-03-17 00:00 UTC, a Sunday: `isoweekday()` is 7, `weekday()` is 6. -/
def sundayMidnight : Timestamp := ⟨0, 0, 17, 3, 7⟩

/-- Splitting never produces an empty list of parts. -/
theorem pySplit_ne_nil (sep : Char) (l : List Char) : pySplit sep l ≠ [] := by
  induction l with
  | nil => simp [pySplit]
  | cons c cs ih =>
    by_cases hc : c = sep
    · simp [pySplit, hc]
    · simp only [pySplit, if_neg hc]
      cases h : pySplit sep cs <;> simp

/-- A string free of the separator splits into the single part it is. -/
theorem pySplit_not_mem {sep : Char} {l : List Char} (h : sep ∉ l) :
    pySplit sep l = [l] := by
  induction l with
  | nil => rfl
  | cons c cs ih =>
    have hc : c ≠ sep := fun hcc => h (hcc ▸ List.mem_cons_self c cs)
    have hcs : sep ∉ cs := fun hm => h (List.mem_cons_of_mem c hm)
    simp only [pySplit, if_neg hc, ih hcs]

/-- Splitting at an explicit first separator occurrence. -/
theorem pySplit_append {sep : Char} {a b : List Char} (h : sep ∉ a) :
    pySplit sep (a ++ sep :: b) = a :: pySplit sep b := by
  induction a with
  | nil => simp [pySplit]
  | cons c cs ih =>
    have hc : c ≠ sep := fun hcc => h (hcc ▸ List.mem_cons_self c cs)
    have hcs : sep ∉ cs := fun hm => h (List.mem_cons_of_mem c hm)
    simp only [List.cons_append, pySplit, if_neg hc, List.append_eq]
    rw [ih hcs]

/-- The number of parts is the number of separator occurrences plus one. -/
theorem pySplit_length (sep : Char) (l : List Char) :
    (pySplit sep l).length = l.count sep + 1 := by
  induction l with
  | nil => simp [pySplit]
  | cons c cs ih =>
    by_cases hc : c = sep
    · subst hc
      simp [pySplit, List.count_cons, ih]
    · simp only [pySplit, if_neg hc]
      cases h : pySplit sep cs with
      | nil => exact absurd h (pySplit_ne_nil sep cs)
      | cons t ts =>
        rw [h] at ih
        simp only [List.length_cons] at ih ⊢
        rw [List.count_cons]
        simp only [beq_iff_eq, if_neg hc]
        omega

/-- Every character of every part comes from the split string. -/
theorem mem_of_mem_pySplit {sep : Char} {l p : List Char} {c : Char}
    (hp : p ∈ pySplit sep l) (hc : c ∈ p) : c ∈ l := by
  induction l generalizing p with
  | nil =>
    simp [pySplit] at hp
    subst hp
    simp at hc
  | cons x cs ih =>
    by_cases hx : x = sep
    · rw [pySplit, if_pos hx] at hp
      rcases List.mem_cons.mp hp with rfl | hp2
      · simp at hc
      · exact List.mem_cons_of_mem x (ih hp2 hc)
    · rw [pySplit, if_neg hx] at hp
      cases h : pySplit sep cs with
      | nil => exact absurd h (pySplit_ne_nil sep cs)
      | cons t ts =>
        rw [h] at hp
        rcases List.mem_cons.mp hp with rfl | hp2
        · rcases List.mem_cons.mp hc with rfl | hc2
          · exact List.mem_cons_self c cs
          · have ht : t ∈ pySplit sep cs := h ▸ List.mem_cons_self t ts
            exact List.mem_cons_of_mem x (ih ht hc2)
        · have hpt : p ∈ pySplit sep cs := h ▸ List.mem_cons_of_mem t hp2
          exact List.mem_cons_of_mem x (ih hpt hc)

/-- The translation table never produces a dash. -/
theorem trChar_ne_dash (c : Char) : trChar c ≠ '-' := by
  unfold trChar
  split
  · decide
  · rename_i h
    exact fun hc => h (Or.inl hc)

/-- No character of a translated string is a dash. -/
theorem translateT_no_dash {e : List Char} {c : Char} (h : c ∈ translateT e) :
    c ≠ '-' := by
  rcases List.mem_map.mp h with ⟨d, _, rfl⟩
  exact trChar_ne_dash d

/-- Translation is the identity on a string with no dash and no slash. -/
theorem translateT_eq_self {e : List Char}
    (h : ∀ c ∈ e, c ≠ '-' ∧ c ≠ '/') : translateT e = e := by
  induction e with
  | nil => rfl
  | cons c cs ih =>
    have hc := h c (List.mem_cons_self c cs)
    have : trChar c = c := by
      unfold trChar
      rw [if_neg]
      rintro (h1 | h2)
      · exact hc.1 h1
      · exact hc.2 h2
    simp only [translateT, List.map_cons]
    rw [this]
    have := ih (fun d hd => h d (List.mem_cons_of_mem c hd))
    simpa [translateT] using this

/-- Star-replacement is the identity on a string with no star. -/
theorem replaceStar_eq_self {max f : List Char} (h : '*' ∉ f) :
    replaceStar max f = f := by
  induction f with
  | nil => rfl
  | cons c cs ih =>
    have hc : c ≠ '*' := fun hcc => h (hcc ▸ List.mem_cons_self c cs)
    have hcs : '*' ∉ cs := fun hm => h (List.mem_cons_of_mem c hm)
    simp only [replaceStar, if_neg hc, ih hcs]

/-- A decimal digit is none of the structural characters of the grammar. -/
theorem isDigit_ne_special {c : Char} (h : c.isDigit = true) :
    c ≠ ',' ∧ c ≠ '*' ∧ c ≠ '-' ∧ c ≠ '/' ∧ c ≠ ' ' := by
  refine ⟨?_, ?_, ?_, ?_, ?_⟩ <;> (rintro rfl; exact absurd h (by decide))

/-- Whitespace-stripping only removes characters. -/
theorem stripWs_subset {c : Char} {l : List Char} (h : c ∈ stripWs l) : c ∈ l := by
  unfold stripWs at h
  rw [List.mem_reverse] at h
  have h1 := (List.dropWhile_sublist (l := (l.dropWhile isPyWhitespace).reverse)
    isPyWhitespace).subset h
  rw [List.mem_reverse] at h1
  exact (List.dropWhile_sublist isPyWhitespace).subset h1

/-- A parsed integer is non-negative when the token carries no minus sign. -/
theorem pyInt_nonneg {tok : List Char} {v : Int} (hd : '-' ∉ tok)
    (hv : pyInt tok = some v) : 0 ≤ v := by
  have hsub : '-' ∉ stripWs tok := fun hm => hd (stripWs_subset hm)
  unfold pyInt at hv
  cases hst : stripWs tok with
  | nil =>
    rw [hst] at hv
    simp at hv
  | cons c rest =>
    rw [hst] at hv
    simp only [List.head?_cons, List.tail_cons, Option.some.injEq] at hv
    by_cases hp : c = '+'
    · rw [if_neg (by simp), if_pos hp] at hv
      rcases Option.map_eq_some'.mp hv with ⟨n, _, rfl⟩
      exact Int.natCast_nonneg n
    · have hm : c ≠ '-' := fun hcc => hsub (hst ▸ (hcc ▸ List.mem_cons_self c rest))
      rw [if_neg (by simp), if_neg hp, if_neg hm] at hv
      rcases Option.map_eq_some'.mp hv with ⟨n, _, rfl⟩
      exact Int.natCast_nonneg n

/-- Python `range(s, s+1, 1)` is the one-element list. -/
theorem pyRangeList_single (s : Int) : pyRangeList s (s + 1) 1 = [s] := by
  have h1 : pyRangeLen s (s + 1) 1 = 1 := by
    unfold pyRangeLen
    rw [if_pos (by norm_num)]
    have he : s + 1 - s + 1 - 1 = 1 := by ring
    rw [he]
    rfl
  have h2 : List.range 1 = [0] := rfl
  unfold pyRangeList
  rw [h1, h2]
  simp

/-- Python `range(s, e, 1)` is empty when the stop is at most the start. -/
theorem pyRangeList_eq_nil {s e : Int} (h : e ≤ s) : pyRangeList s e 1 = [] := by
  have h1 : pyRangeLen s e 1 = 0 := by
    unfold pyRangeLen
    rw [if_pos (by norm_num)]
    have he : e - s + 1 - 1 = e - s := by ring
    rw [he]
    have : (e - s).toNat = 0 := Int.toNat_of_nonpos (by omega)
    rw [this]
    decide
  unfold pyRangeList
  rw [h1]
  rfl

/-- With a positive step, every member of Python `range(s, e, st)` lies in
the half-open interval from `s` to `e`. -/
theorem pyRangeList_mem {s e st x : Int} (hst : 0 < st)
    (hx : x ∈ pyRangeList s e st) : s ≤ x ∧ x < e := by
  unfold pyRangeList at hx
  rcases List.mem_map.mp hx with ⟨i, hi, rfl⟩
  rw [List.mem_range] at hi
  unfold pyRangeLen at hi
  rw [if_pos hst] at hi
  have hnn : (0 : Int) ≤ st * i := mul_nonneg (le_of_lt hst) (Int.natCast_nonneg i)
  constructor
  · linarith
  · have hd : 0 < st.toNat := by omega
    have h3 : i + 1 ≤ (e - s + st - 1).toNat / st.toNat := hi
    have h2 : (i + 1) * st.toNat ≤ (e - s + st - 1).toNat :=
      le_trans (Nat.mul_le_mul_right _ h3) (Nat.div_mul_le_self _ _)
    have h2c : (((i + 1) * st.toNat : Nat) : Int) ≤ (((e - s + st - 1).toNat : Nat) : Int) :=
      Int.ofNat_le.mpr h2
    rw [Nat.cast_mul, Int.toNat_of_nonneg (le_of_lt hst), Int.toNat_eq_max] at h2c
    have hEq : ((i + 1 : Nat) : Int) * st = st * (i : Int) + st := by
      push_cast
      ring
    rw [hEq] at h2c
    rcases le_or_lt 0 (e - s + st - 1) with hp | hn
    · rw [max_eq_left hp] at h2c
      linarith
    · rw [max_eq_right (le_of_lt hn)] at h2c
      linarith

/-- With a positive step and start below stop, Python `range` is non-empty. -/
theorem pyRangeList_ne_nil {s e st : Int} (hst : 0 < st) (hse : s < e) :
    pyRangeList s e st ≠ [] := by
  unfold pyRangeList
  intro h
  rw [List.map_eq_nil_iff, List.range_eq_nil] at h
  unfold pyRangeLen at h
  rw [if_pos hst] at h
  have h1 : st.toNat ≤ (e - s + st - 1).toNat := by omega
  have hd : 0 < st.toNat := by omega
  have := Nat.div_le_div_right (c := st.toNat) h1
  rw [Nat.div_self hd] at this
  omega

/-- A comprehension aborts when any element raises. -/
theorem mapOpt_eq_none {α β : Type} {g : α → Option β} {l : List α} {x : α}
    (hx : x ∈ l) (hg : g x = none) : mapOpt g l = none := by
  induction l with
  | nil => simp at hx
  | cons a as ih =>
    rcases List.mem_cons.mp hx with rfl | hx2
    · simp [mapOpt, hg]
    · cases h : g a with
      | none => simp [mapOpt, h]
      | some y => simp [mapOpt, h, ih hx2]

/-- Every element of a successful comprehension comes from applying the body
to some element of the source list. -/
theorem mapOpt_some_mem {α β : Type} {g : α → Option β} {l : List α}
    {r : List β} (h : mapOpt g l = some r) : ∀ y ∈ r, ∃ x ∈ l, g x = some y := by
  induction l generalizing r with
  | nil =>
    simp [mapOpt] at h
    subst h
    simp
  | cons a as ih =>
    cases hga : g a with
    | none => simp [mapOpt, hga] at h
    | some b =>
      cases hrec : mapOpt g as with
      | none => simp [mapOpt, hga, hrec] at h
      | some rs =>
        simp [mapOpt, hga, hrec] at h
        subst h
        intro y hy
        rcases List.mem_cons.mp hy with rfl | hy2
        · exact ⟨a, List.mem_cons_self a as, hga⟩
        · rcases ih hrec y hy2 with ⟨x, hxl, hgx⟩
          exact ⟨x, List.mem_cons_of_mem a hxl, hgx⟩

/-- A successful comprehension over a non-empty list is non-empty. -/
theorem mapOpt_some_ne_nil {α β : Type} {g : α → Option β} {l : List α}
    {r : List β} (h : mapOpt g l = some r) (hl : l ≠ []) : r ≠ [] := by
  cases l with
  | nil => exact absurd rfl hl
  | cons a as =>
    cases hga : g a with
    | none => simp [mapOpt, hga] at h
    | some b =>
      cases hrec : mapOpt g as with
      | none => simp [mapOpt, hga, hrec] at h
      | some rs =>
        simp [mapOpt, hga, hrec] at h
        subst h
        simp

/-- Tokens handed to `_range` never contain a dash: the translation table
already replaced every dash by a space before the split. -/
theorem tok_no_dash {e tok : List Char} (h : tok ∈ pySplit ' ' (translateT e)) :
    '-' ∉ tok := fun hc => translateT_no_dash (mem_of_mem_pySplit h hc) rfl

/-- Unpacking an in-range token certificate at a known parse result. -/
theorem tokInRange_elim {lo hi : Int} {tok : List Char} {v : Int}
    (h : tokInRange lo hi tok = true) (hv : pyInt tok = some v) :
    lo ≤ v ∧ v ≤ hi := by
  unfold tokInRange at h
  rw [hv] at h
  simpa using h

/-- A token `int()` rejects makes the whole `_range` call raise. -/
theorem pyRangeCall_none_of_bad_tok {toks : List (List Char)} {tok : List Char}
    (htok : tok ∈ toks) (hnone : pyInt tok = none) : pyRangeCall toks = none := by
  rcases toks with _ | ⟨a, _ | ⟨b, _ | ⟨c, _ | ⟨d, rest⟩⟩⟩⟩
  · simp at htok
  · have : tok = a := by simpa using htok
    subst this
    simp [pyRangeCall, hnone]
  · rcases List.mem_cons.mp htok with rfl | h2
    · simp [pyRangeCall, hnone]
    · have : tok = b := by simpa using h2
      subst this
      cases hpa : pyInt a <;> simp [pyRangeCall, hpa, hnone]
  · rcases List.mem_cons.mp htok with rfl | h2
    · simp [pyRangeCall, hnone]
    · rcases List.mem_cons.mp h2 with rfl | h3
      · cases hpa : pyInt a <;> simp [pyRangeCall, hpa, hnone]
      · have : tok = c := by simpa using h3
        subst this
        cases hpa : pyInt a <;> cases hpb : pyInt b <;>
          simp [pyRangeCall, hpa, hpb, hnone]
  · simp [pyRangeCall]

/-- On success with sign-free tokens whose values all lie between `lo` and
`hi`, every integer produced by `_range` lies between `lo` and `hi`. -/
theorem pyRangeCall_mem_bounds {toks : List (List Char)} {sub : List Int}
    {lo hi : Int} (hcall : pyRangeCall toks = some sub)
    (hnodash : ∀ tok ∈ toks, '-' ∉ tok)
    (hbound : ∀ tok ∈ toks, tokInRange lo hi tok = true) :
    ∀ x ∈ sub, lo ≤ x ∧ x ≤ hi := by
  rcases toks with _ | ⟨a, _ | ⟨b, _ | ⟨c, _ | ⟨d, rest⟩⟩⟩⟩
  · simp [pyRangeCall] at hcall
  · cases hpa : pyInt a with
    | none => simp [pyRangeCall, hpa] at hcall
    | some va =>
      simp [pyRangeCall, hpa] at hcall
      subst hcall
      intro x hx
      rw [pyRangeList_single] at hx
      have hxa : x = va := by simpa using hx
      subst hxa
      exact tokInRange_elim (hbound a (by simp)) hpa
  · cases hpa : pyInt a with
    | none => simp [pyRangeCall, hpa] at hcall
    | some va =>
      cases hpb : pyInt b with
      | none => simp [pyRangeCall, hpa, hpb] at hcall
      | some vb =>
        simp [pyRangeCall, hpa, hpb] at hcall
        subst hcall
        intro x hx
        have hm := pyRangeList_mem (by norm_num) hx
        have ha := tokInRange_elim (hbound a (by simp)) hpa
        have hb := tokInRange_elim (hbound b (by simp)) hpb
        omega
  · cases hpa : pyInt a with
    | none => simp [pyRangeCall, hpa] at hcall
    | some va =>
      cases hpb : pyInt b with
      | none => simp [pyRangeCall, hpa, hpb] at hcall
      | some vb =>
        cases hpc : pyInt c with
        | none => simp [pyRangeCall, hpa, hpb, hpc] at hcall
        | some st =>
          by_cases hst0 : st = 0
          · simp [pyRangeCall, hpa, hpb, hpc, hst0] at hcall
          · simp [pyRangeCall, hpa, hpb, hpc, hst0] at hcall
            subst hcall
            have hstpos : 0 < st := by
              have := pyInt_nonneg (hnodash c (by simp)) hpc
              omega
            intro x hx
            have hm := pyRangeList_mem hstpos hx
            have ha := tokInRange_elim (hbound a (by simp)) hpa
            have hb := tokInRange_elim (hbound b (by simp)) hpb
            omega
  · simp [pyRangeCall] at hcall

/-- On success with sign-free, ordered tokens, `_range` returns a non-empty
list. -/
theorem pyRangeCall_some_ne_nil {toks : List (List Char)} {sub : List Int}
    (hcall : pyRangeCall toks = some sub)
    (hnodash : ∀ tok ∈ toks, '-' ∉ tok)
    (hord : elemOrdered toks = true) : sub ≠ [] := by
  rcases toks with _ | ⟨a, _ | ⟨b, _ | ⟨c, _ | ⟨d, rest⟩⟩⟩⟩
  · simp [pyRangeCall] at hcall
  · cases hpa : pyInt a with
    | none => simp [pyRangeCall, hpa] at hcall
    | some va =>
      simp [pyRangeCall, hpa] at hcall
      subst hcall
      rw [pyRangeList_single]
      simp
  · cases hpa : pyInt a with
    | none => simp [pyRangeCall, hpa] at hcall
    | some va =>
      cases hpb : pyInt b with
      | none => simp [pyRangeCall, hpa, hpb] at hcall
      | some vb =>
        simp [pyRangeCall, hpa, hpb] at hcall
        subst hcall
        simp only [elemOrdered, hpa, hpb] at hord
        have hab : va ≤ vb := by simpa using hord
        exact pyRangeList_ne_nil (by norm_num) (by omega)
  · cases hpa : pyInt a with
    | none => simp [pyRangeCall, hpa] at hcall
    | some va =>
      cases hpb : pyInt b with
      | none => simp [pyRangeCall, hpa, hpb] at hcall
      | some vb =>
        cases hpc : pyInt c with
        | none => simp [pyRangeCall, hpa, hpb, hpc] at hcall
        | some st =>
          by_cases hst0 : st = 0
          · simp [pyRangeCall, hpa, hpb, hpc, hst0] at hcall
          · simp [pyRangeCall, hpa, hpb, hpc, hst0] at hcall
            subst hcall
            simp only [elemOrdered, hpa, hpb] at hord
            have hab : va ≤ vb := by simpa using hord
            have hstpos : 0 < st := by
              have := pyInt_nonneg (hnodash c (by simp)) hpc
              omega
            exact pyRangeList_ne_nil hstpos (by omega)
  · simp [pyRangeCall] at hcall

/-- A schedule string that lowercases to none of the aliases is parsed by the
five-field body directly. -/
theorem parse_schedule_not_alias {s : List Char}
    (h : isAlias (pyLower s) = false) :
    parse_schedule s = parse_fields (pyLower s) := by
  unfold isAlias at h
  simp only [Bool.or_eq_false_iff, decide_eq_false_iff_not] at h
  obtain ⟨⟨⟨⟨⟨⟨⟨h1, h2⟩, h3⟩, h4⟩, h5⟩, h6⟩, h7⟩, h8⟩ := h
  unfold parse_schedule
  rw [if_neg (by tauto), if_neg h3, if_neg h4, if_neg (by tauto), if_neg h7,
    if_neg h8]

/-- When the split does not give exactly five parts, tuple unpacking in
`_parse_schedule` raises. -/
theorem parse_fields_len_ne {s : List Char}
    (h : (pySplit ' ' s).length ≠ 5) : parse_fields s = none := by
  unfold parse_fields
  generalize hps : pySplit ' ' s = ps at h
  match ps with
  | [] => rfl
  | [a] => rfl
  | [a, b] => rfl
  | [a, b, c] => rfl
  | [a, b, c, d] => rfl
  | [a, b, c, d, e] => simp at h
  | a :: b :: c :: d :: e :: f :: rest => rfl

/-- Matching depends on the schedule string only through its parse. -/
theorem scheduled_congr (t : Timestamp) {a b : List Char}
    (h : parse_schedule a = parse_schedule b) :
    scheduled t a = scheduled t b := by
  unfold scheduled
  rw [h]

/-- A non-alias schedule without exactly five space-separated fields makes
`_scheduled` raise rather than return a boolean. -/
theorem scheduled_none_of {s : List Char} (t : Timestamp)
    (hal : isAlias (pyLower s) = false)
    (hlen : (pySplit ' ' (pyLower s)).length ≠ 5) : scheduled t s = none := by
  unfold scheduled
  rw [parse_schedule_not_alias hal, parse_fields_len_ne hlen]
  rfl

/-- Python's `in` on a compiled field list is list membership. -/
theorem contains_iff_mem (l : List Int) (x : Int) : l.contains x = true ↔ x ∈ l :=
  List.elem_iff

/-- Unfolding `_scheduled` at a successful parse. -/
theorem scheduled_eq_some {t : Timestamp} {s : List Char} {sch : Schedule}
    (h : parse_schedule s = some sch) :
    scheduled t s = some (
      sch.minute.contains t.minute && sch.hour.contains t.hour &&
      sch.day.contains t.day && sch.month.contains t.month &&
      (if sch.weekday.contains 7 then sch.weekday.contains t.isoweekday
       else sch.weekday.contains t.pyWeekday)) := by
  unfold scheduled
  rw [h]
  rfl

/-- The translation table does not distinguish a slash from a dash. -/
theorem trChar_slashToDash (c : Char) : trChar (slashToDash c) = trChar c := by
  by_cases h : c = '/'
  · subst h
    rfl
  · unfold slashToDash
    rw [if_neg h]

/-- Translating a string is unaffected by first turning slashes into dashes. -/
theorem translateT_slashToDash (l : List Char) :
    translateT (l.map slashToDash) = translateT l := by
  unfold translateT
  rw [List.map_map]
  apply List.map_congr_left
  intro a _
  exact trChar_slashToDash a

/-- Slash-to-dash replacement creates and destroys no star. -/
theorem slashToDash_star {c : Char} : slashToDash c = '*' ↔ c = '*' := by
  unfold slashToDash
  split
  · rename_i h
    subst h
    constructor <;> (intro h2; exact absurd h2 (by decide))
  · exact Iff.rfl

/-- Slash-to-dash replacement creates and destroys no comma. -/
theorem slashToDash_comma {c : Char} : slashToDash c = ',' ↔ c = ',' := by
  unfold slashToDash
  split
  · rename_i h
    subst h
    constructor <;> (intro h2; exact absurd h2 (by decide))
  · exact Iff.rfl

/-- Star-replacement commutes with slash-to-dash replacement when the
replacement text is itself slash-free. -/
theorem replaceStar_slashToDash {max f : List Char}
    (hm : max.map slashToDash = max) :
    replaceStar max (f.map slashToDash) = (replaceStar max f).map slashToDash := by
  induction f with
  | nil => rfl
  | cons c cs ih =>
    simp only [List.map_cons, replaceStar]
    by_cases hc : c = '*'
    · subst hc
      rw [if_pos (show slashToDash '*' = '*' from rfl), if_pos rfl, List.map_append,
        hm, ih]
    · rw [if_neg (fun h => hc (slashToDash_star.mp h)), if_neg hc, List.map_cons, ih]

/-- Comma-splitting commutes with slash-to-dash replacement. -/
theorem pySplit_comma_slashToDash (l : List Char) :
    pySplit ',' (l.map slashToDash) = (pySplit ',' l).map (List.map slashToDash) := by
  induction l with
  | nil => rfl
  | cons c cs ih =>
    simp only [List.map_cons, pySplit]
    by_cases hc : c = ','
    · subst hc
      rw [if_pos (show slashToDash ',' = ',' from rfl), if_pos rfl, List.map_cons, ih]
      rfl
    · rw [if_neg (fun h => hc (slashToDash_comma.mp h)), if_neg hc, ih]
      cases h : pySplit ',' cs with
      | nil => exact absurd h (pySplit_ne_nil ',' cs)
      | cons t ts => simp

/-- A comprehension over a mapped list composes the functions. -/
theorem mapOpt_map {α β γ : Type} (g : β → Option γ) (h : α → β) (l : List α) :
    mapOpt g (l.map h) = mapOpt (fun x => g (h x)) l := by
  induction l with
  | nil => rfl
  | cons a as ih => simp [mapOpt, ih]

/-- Comprehensions with pointwise-equal bodies agree. -/
theorem mapOpt_congr {α β : Type} {g g2 : α → Option β} {l : List α}
    (h : ∀ x ∈ l, g x = g2 x) : mapOpt g l = mapOpt g2 l := by
  induction l with
  | nil => rfl
  | cons a as ih =>
    simp only [mapOpt, h a (List.mem_cons_self a as),
      ih (fun x hx => h x (List.mem_cons_of_mem a hx))]

/-- Lowercasing maps no character onto the space character. -/
theorem pyLowerChar_eq_space_iff (c : Char) : pyLowerChar c = ' ' ↔ c = ' ' := by
  constructor
  · intro h
    unfold pyLowerChar at h
    by_cases h1 : c = 'A'
    · rw [if_pos h1] at h
      exact absurd h (by decide)
    rw [if_neg h1] at h
    by_cases h2 : c = 'B'
    · rw [if_pos h2] at h
      exact absurd h (by decide)
    rw [if_neg h2] at h
    by_cases h3 : c = 'C'
    · rw [if_pos h3] at h
      exact absurd h (by decide)
    rw [if_neg h3] at h
    by_cases h4 : c = 'D'
    · rw [if_pos h4] at h
      exact absurd h (by decide)
    rw [if_neg h4] at h
    by_cases h5 : c = 'E'
    · rw [if_pos h5] at h
      exact absurd h (by decide)
    rw [if_neg h5] at h
    by_cases h6 : c = 'F'
    · rw [if_pos h6] at h
      exact absurd h (by decide)
    rw [if_neg h6] at h
    by_cases h7 : c = 'G'
    · rw [if_pos h7] at h
      exact absurd h (by decide)
    rw [if_neg h7] at h
    by_cases h8 : c = 'H'
    · rw [if_pos h8] at h
      exact absurd h (by decide)
    rw [if_neg h8] at h
    by_cases h9 : c = 'I'
    · rw [if_pos h9] at h
      exact absurd h (by decide)
    rw [if_neg h9] at h
    by_cases h10 : c = 'J'
    · rw [if_pos h10] at h
      exact absurd h (by decide)
    rw [if_neg h10] at h
    by_cases h11 : c = 'K'
    · rw [if_pos h11] at h
      exact absurd h (by decide)
    rw [if_neg h11] at h
    by_cases h12 : c = 'L'
    · rw [if_pos h12] at h
      exact absurd h (by decide)
    rw [if_neg h12] at h
    by_cases h13 : c = 'M'
    · rw [if_pos h13] at h
      exact absurd h (by decide)
    rw [if_neg h13] at h
    by_cases h14 : c = 'N'
    · rw [if_pos h14] at h
      exact absurd h (by decide)
    rw [if_neg h14] at h
    by_cases h15 : c = 'O'
    · rw [if_pos h15] at h
      exact absurd h (by decide)
    rw [if_neg h15] at h
    by_cases h16 : c = 'P'
    · rw [if_pos h16] at h
      exact absurd h (by decide)
    rw [if_neg h16] at h
    by_cases h17 : c = 'Q'
    · rw [if_pos h17] at h
      exact absurd h (by decide)
    rw [if_neg h17] at h
    by_cases h18 : c = 'R'
    · rw [if_pos h18] at h
      exact absurd h (by decide)
    rw [if_neg h18] at h
    by_cases h19 : c = 'S'
    · rw [if_pos h19] at h
      exact absurd h (by decide)
    rw [if_neg h19] at h
    by_cases h20 : c = 'T'
    · rw [if_pos h20] at h
      exact absurd h (by decide)
    rw [if_neg h20] at h
    by_cases h21 : c = 'U'
    · rw [if_pos h21] at h
      exact absurd h (by decide)
    rw [if_neg h21] at h
    by_cases h22 : c = 'V'
    · rw [if_pos h22] at h
      exact absurd h (by decide)
    rw [if_neg h22] at h
    by_cases h23 : c = 'W'
    · rw [if_pos h23] at h
      exact absurd h (by decide)
    rw [if_neg h23] at h
    by_cases h24 : c = 'X'
    · rw [if_pos h24] at h
      exact absurd h (by decide)
    rw [if_neg h24] at h
    by_cases h25 : c = 'Y'
    · rw [if_pos h25] at h
      exact absurd h (by decide)
    rw [if_neg h25] at h
    by_cases h26 : c = 'Z'
    · rw [if_pos h26] at h
      exact absurd h (by decide)
    rw [if_neg h26] at h
    exact h
  · rintro rfl
    rfl

/-- Lowercasing preserves the number of spaces in a string. -/
theorem count_space_pyLower (l : List Char) :
    (pyLower l).count ' ' = l.count ' ' := by
  induction l with
  | nil => rfl
  | cons c cs ih =>
    show ((c :: cs).map pyLowerChar).count ' ' = (c :: cs).count ' '
    rw [List.map_cons, List.count_cons, List.count_cons]
    have ih2 : (cs.map pyLowerChar).count ' ' = cs.count ' ' := ih
    rw [ih2]
    congr 1
    by_cases hc : c = ' '
    · subst hc
      rfl
    · have hpc : pyLowerChar c ≠ ' ' := fun h => hc ((pyLowerChar_eq_space_iff c).mp h)
      simp [hc, hpc]

/-- C1: the code evaluated at the claim's input.  With weekday field `0` the
compiled weekday list is `[0]`, which does not contain 7, so the match uses
`t.weekday()` (Monday=0 … Sunday=6); on a Sunday that value is 6, not 0, and
the schedule does NOT match, contrary to the claim.  With weekday field `7`
the list `[7]` contains 7, the match uses `t.isoweekday()` = 7, and the
schedule matches, as the claim says. -/
theorem c1_weekday_zero_sunday_behavior :
    scheduled sundayMidnight ("0 0 * * 0".toList) = some false ∧
    scheduled sundayMidnight ("0 0 * * 7".toList) = some true := by decide

/-- C2 counterexample: `5/15` in the minute field is parsed as the range 5–15
with stride 1 (the translation table sends `-` and `/` to the same separator),
not as `5-59/15`; the two denote different sets, so start/step does not mean
start-max/step. -/
theorem c2_counterexample :
    parse_field ("5/15".toList) ("0-59".toList) =
      some [5, 6, 7, 8, 9, 10, 11, 12, 13, 14, 15] ∧
    parse_field ("5-59/15".toList) ("0-59".toList) = some [5, 20, 35, 50] := by decide

/-- C3 counterexample: the range-element `5-2` with stop < start is not
rejected; `range(5, 3)` silently yields the empty list and `_parse_field`
returns the empty set without any error. -/
theorem c3_counterexample :
    parse_field ("5-2".toList) ("0-59".toList) = some [] := by decide

/-- C4 counterexample: `10-3` is a syntactically valid field whose literals
10 and 3 both lie inside the minute bound 0–59, yet the parse succeeds with
the EMPTY set, violating the claimed non-emptiness. -/
theorem c4_counterexample :
    parse_field ("10-3".toList) ("0-59".toList) = some [] := by decide

/-- C2 (amended): a slash is interchangeable with a dash everywhere in a
field (the translation table collapses both to the same separator), so a
`start/step` element is parsed exactly like the inclusive range
`start-step`: `5/15` in the minute field denotes 5 through 15 in steps of 1,
not 5 through 59 in steps of 15. -/
theorem c2_slash_equals_dash :
    (∀ f max : List Char, max.map slashToDash = max →
      parse_field (f.map slashToDash) max = parse_field f max) ∧
    parse_field ("5/15".toList) ("0-59".toList) =
      parse_field ("5-15".toList) ("0-59".toList) := by
  constructor
  · intro f max hm
    unfold parse_field
    rw [replaceStar_slashToDash hm, pySplit_comma_slashToDash, mapOpt_map]
    congr 1
    apply mapOpt_congr
    intro e _
    rw [translateT_slashToDash]
  · decide

/-- Witness for C2 (amended) at the claim's own example. -/
theorem c2_slash_equals_dash_witness :
    parse_field (("5/15".toList).map slashToDash) ("0-59".toList) =
      parse_field ("5/15".toList) ("0-59".toList) :=
  c2_slash_equals_dash.1 ("5/15".toList) ("0-59".toList) (by decide)

/-- C3 (amended): a range-element whose stop is below its start is not
rejected; the element silently denotes the empty set and `_parse_field`
succeeds with an empty result. -/
theorem c3_stop_lt_start_silent_empty :
    ∀ (a b max : List Char) (va vb : Int),
      (∀ c ∈ a, c.isDigit = true) → (∀ c ∈ b, c.isDigit = true) →
      pyInt a = some va → pyInt b = some vb → vb < va →
      parse_field (a ++ '-' :: b) max = some [] := by
  intro a b max va vb hda hdb hva hvb hlt
  have hstar : '*' ∉ a ++ '-' :: b := by
    intro hm
    rcases List.mem_append.mp hm with h | h
    · exact (isDigit_ne_special (hda _ h)).2.1 rfl
    · rcases List.mem_cons.mp h with h1 | h2
      · exact absurd h1.symm (by decide)
      · exact (isDigit_ne_special (hdb _ h2)).2.1 rfl
  have hcomma : ',' ∉ a ++ '-' :: b := by
    intro hm
    rcases List.mem_append.mp hm with h | h
    · exact (isDigit_ne_special (hda _ h)).1 rfl
    · rcases List.mem_cons.mp h with h1 | h2
      · exact absurd h1.symm (by decide)
      · exact (isDigit_ne_special (hdb _ h2)).1 rfl
  have hsa : ' ' ∉ a := fun hm => (isDigit_ne_special (hda _ hm)).2.2.2.2 rfl
  have hsb : ' ' ∉ b := fun hm => (isDigit_ne_special (hdb _ hm)).2.2.2.2 rfl
  have hta : translateT a = a := translateT_eq_self (fun c hm =>
    ⟨(isDigit_ne_special (hda c hm)).2.2.1, (isDigit_ne_special (hda c hm)).2.2.2.1⟩)
  have htb : translateT b = b := translateT_eq_self (fun c hm =>
    ⟨(isDigit_ne_special (hdb c hm)).2.2.1, (isDigit_ne_special (hdb c hm)).2.2.2.1⟩)
  have htr : translateT (a ++ '-' :: b) = a ++ ' ' :: b := by
    unfold translateT at hta htb ⊢
    rw [List.map_append, hta, List.map_cons, htb]
    norm_num [trChar]
  have hg : pyRangeCall (pySplit ' ' (translateT (a ++ '-' :: b))) = some [] := by
    rw [htr, pySplit_append hsa, pySplit_not_mem hsb]
    simp [pyRangeCall, hva, hvb, pyRangeList_eq_nil (show vb + 1 ≤ va by omega)]
  unfold parse_field
  rw [replaceStar_eq_self hstar, pySplit_not_mem hcomma]
  simp [mapOpt, hg]

/-- Witness for C3 (amended) at the claim's own example `5-2`. -/
theorem c3_stop_lt_start_silent_empty_witness :
    parse_field ("5".toList ++ '-' :: "2".toList) ("0-59".toList) = some [] :=
  c3_stop_lt_start_silent_empty ("5".toList) ("2".toList) ("0-59".toList) 5 2
    (by decide) (by decide) (by decide) (by decide) (by decide)

/-- C4 (amended): for a field whose tokens (after star substitution) all
parse to values between the bound's minimum and maximum, every integer of a
successful parse lies between that minimum and maximum; and the result is
non-empty provided additionally every range-element is ordered (start at
most stop).  Without that last proviso the result can be empty, so the
non-emptiness half of the original claim is false as stated. -/
theorem c4_bounds_and_guarded_nonempty :
    (∀ (f max : List Char) (lo hi : Int) (l : List Int),
      (∀ e ∈ pySplit ',' (replaceStar max f),
        ∀ tok ∈ pySplit ' ' (translateT e), tokInRange lo hi tok = true) →
      parse_field f max = some l → ∀ x ∈ l, lo ≤ x ∧ x ≤ hi) ∧
    (∀ (f max : List Char) (l : List Int),
      (∀ e ∈ pySplit ',' (replaceStar max f),
        elemOrdered (pySplit ' ' (translateT e)) = true) →
      parse_field f max = some l → l ≠ []) := by
  constructor
  · intro f max lo hi l hb hp
    unfold parse_field at hp
    rcases Option.map_eq_some'.mp hp with ⟨r, hr, rfl⟩
    intro x hx
    rcases List.mem_flatten.mp hx with ⟨sub, hsub, hxs⟩
    rcases mapOpt_some_mem hr sub hsub with ⟨e, he, hge⟩
    exact pyRangeCall_mem_bounds hge (fun tok ht => tok_no_dash ht) (hb e he) x hxs
  · intro f max l ho hp
    unfold parse_field at hp
    rcases Option.map_eq_some'.mp hp with ⟨r, hr, rfl⟩
    have hrne : r ≠ [] := mapOpt_some_ne_nil hr (pySplit_ne_nil ',' _)
    cases r with
    | nil => exact absurd rfl hrne
    | cons s0 rest =>
      rcases mapOpt_some_mem hr s0 (List.mem_cons_self s0 rest) with ⟨e, he, hge⟩
      have h0 : s0 ≠ [] :=
        pyRangeCall_some_ne_nil hge (fun tok ht => tok_no_dash ht) (ho e he)
      simp only [List.flatten_cons]
      intro hcontra
      rcases List.append_eq_nil.mp hcontra with ⟨h1, _⟩
      exact h0 h1

/-- Witness for C4 (amended) on the minute field `1-5,30`. -/
theorem c4_bounds_and_guarded_nonempty_witness :
    (∀ x ∈ ([1, 2, 3, 4, 5, 30] : List Int), (0 : Int) ≤ x ∧ x ≤ 59) ∧
    ([1, 2, 3, 4, 5, 30] : List Int) ≠ [] :=
  ⟨c4_bounds_and_guarded_nonempty.1 ("1-5,30".toList) ("0-59".toList) 0 59
      [1, 2, 3, 4, 5, 30] (by decide) (by decide),
    c4_bounds_and_guarded_nonempty.2 ("1-5,30".toList) ("0-59".toList)
      [1, 2, 3, 4, 5, 30] (by decide) (by decide)⟩

/-- C5: for every successfully parsed schedule, the weekday membership test
uses the timestamp's ISO weekday (Monday=1 … Sunday=7) exactly when the
compiled weekday list contains 7, and the timestamp's Monday-indexed weekday
(`weekday()`, Monday=0 … Sunday=6) otherwise. -/
theorem c5_weekday_numbering (t : Timestamp) (s : List Char) (sch : Schedule)
    (h : parse_schedule s = some sch) :
    ((7 : Int) ∈ sch.weekday →
      (scheduled t s = some true ↔
        (t.minute ∈ sch.minute ∧ t.hour ∈ sch.hour ∧ t.day ∈ sch.day ∧
         t.month ∈ sch.month ∧ t.isoweekday ∈ sch.weekday))) ∧
    ((7 : Int) ∉ sch.weekday →
      (scheduled t s = some true ↔
        (t.minute ∈ sch.minute ∧ t.hour ∈ sch.hour ∧ t.day ∈ sch.day ∧
         t.month ∈ sch.month ∧ t.pyWeekday ∈ sch.weekday))) := by
  constructor
  · intro h7
    rw [scheduled_eq_some h, Option.some_inj,
      if_pos ((contains_iff_mem _ _).mpr h7)]
    simp only [Bool.and_eq_true, contains_iff_mem]
    tauto
  · intro h7
    have hc : ¬(sch.weekday.contains 7 = true) :=
      fun hcc => h7 ((contains_iff_mem _ _).mp hcc)
    rw [scheduled_eq_some h, Option.some_inj, if_neg hc]
    simp only [Bool.and_eq_true, contains_iff_mem]
    tauto

/-- Witness for C5 on the schedule `0 0 * * 7` at a Sunday midnight. -/
theorem c5_weekday_numbering_witness :
    scheduled sundayMidnight ("0 0 * * 7".toList) = some true ↔
      (sundayMidnight.minute ∈ ([0] : List Int) ∧
       sundayMidnight.hour ∈ ([0] : List Int) ∧
       sundayMidnight.day ∈
         ([1, 2, 3, 4, 5, 6, 7, 8, 9, 10, 11, 12, 13, 14, 15, 16, 17, 18, 19,
           20, 21, 22, 23, 24, 25, 26, 27, 28, 29, 30, 31] : List Int) ∧
       sundayMidnight.month ∈
         ([1, 2, 3, 4, 5, 6, 7, 8, 9, 10, 11, 12] : List Int) ∧
       sundayMidnight.isoweekday ∈ ([7] : List Int)) :=
  (c5_weekday_numbering sundayMidnight ("0 0 * * 7".toList)
      ⟨[0], [0],
        [1, 2, 3, 4, 5, 6, 7, 8, 9, 10, 11, 12, 13, 14, 15, 16, 17, 18, 19,
          20, 21, 22, 23, 24, 25, 26, 27, 28, 29, 30, 31],
        [1, 2, 3, 4, 5, 6, 7, 8, 9, 10, 11, 12], [7]⟩ (by decide)).1
    (by decide)

/-- C6: for every successfully parsed schedule, matching is the conjunction
of all five membership tests — minute, hour, day of month, month, and the
weekday test under the numbering selected by C5 — with no OR between day of
month and weekday. -/
theorem c6_conjunction (t : Timestamp) (s : List Char) (sch : Schedule)
    (h : parse_schedule s = some sch) :
    (scheduled t s = some true ↔
      (t.minute ∈ sch.minute ∧ t.hour ∈ sch.hour ∧ t.day ∈ sch.day ∧
       t.month ∈ sch.month ∧
       (((7 : Int) ∈ sch.weekday ∧ t.isoweekday ∈ sch.weekday) ∨
        ((7 : Int) ∉ sch.weekday ∧ t.pyWeekday ∈ sch.weekday)))) := by
  by_cases h7 : (7 : Int) ∈ sch.weekday
  · rw [scheduled_eq_some h, Option.some_inj,
      if_pos ((contains_iff_mem _ _).mpr h7)]
    simp only [Bool.and_eq_true, contains_iff_mem]
    tauto
  · have hc : ¬(sch.weekday.contains 7 = true) :=
      fun hcc => h7 ((contains_iff_mem _ _).mp hcc)
    rw [scheduled_eq_some h, Option.some_inj, if_neg hc]
    simp only [Bool.and_eq_true, contains_iff_mem]
    tauto

/-- Witness for C6 on the schedule `30 2 15 * 1` at a Friday timestamp. -/
theorem c6_conjunction_witness :
    scheduled fridayT ("30 2 15 * 1".toList) = some true ↔
      (fridayT.minute ∈ ([30] : List Int) ∧ fridayT.hour ∈ ([2] : List Int) ∧
       fridayT.day ∈ ([15] : List Int) ∧
       fridayT.month ∈ ([1, 2, 3, 4, 5, 6, 7, 8, 9, 10, 11, 12] : List Int) ∧
       (((7 : Int) ∈ ([1] : List Int) ∧ fridayT.isoweekday ∈ ([1] : List Int)) ∨
        ((7 : Int) ∉ ([1] : List Int) ∧ fridayT.pyWeekday ∈ ([1] : List Int)))) :=
  c6_conjunction fridayT ("30 2 15 * 1".toList)
    ⟨[30], [2], [15], [1, 2, 3, 4, 5, 6, 7, 8, 9, 10, 11, 12], [1]⟩ (by decide)

/-- C7: every alias matches exactly as its canonical five-field form does,
for every timestamp, and recognition is case-insensitive. -/
theorem c7_alias_equivalence (t : Timestamp) :
    (scheduled t ("@daily".toList) = scheduled t ("0 0 * * *".toList) ∧
     scheduled t ("@DAILY".toList) = scheduled t ("0 0 * * *".toList) ∧
     scheduled t ("@midnight".toList) = scheduled t ("0 0 * * *".toList) ∧
     scheduled t ("@Midnight".toList) = scheduled t ("0 0 * * *".toList)) ∧
    (scheduled t ("@hourly".toList) = scheduled t ("0 * * * *".toList) ∧
     scheduled t ("@HOURLY".toList) = scheduled t ("0 * * * *".toList)) ∧
    (scheduled t ("@weekly".toList) = scheduled t ("0 0 * * 0".toList) ∧
     scheduled t ("@Weekly".toList) = scheduled t ("0 0 * * 0".toList)) ∧
    (scheduled t ("@monthly".toList) = scheduled t ("0 0 1 * *".toList) ∧
     scheduled t ("@MONTHLY".toList) = scheduled t ("0 0 1 * *".toList)) ∧
    (scheduled t ("@yearly".toList) = scheduled t ("0 0 1 1 *".toList) ∧
     scheduled t ("@annually".toList) = scheduled t ("0 0 1 1 *".toList) ∧
     scheduled t ("@Annually".toList) = scheduled t ("0 0 1 1 *".toList)) ∧
    (scheduled t ("@every_minute".toList) = scheduled t ("*/1 * * * *".toList) ∧
     scheduled t ("@EVERY_MINUTE".toList) = scheduled t ("*/1 * * * *".toList)) :=
  ⟨⟨scheduled_congr t (by decide), scheduled_congr t (by decide),
    scheduled_congr t (by decide), scheduled_congr t (by decide)⟩,
   ⟨scheduled_congr t (by decide), scheduled_congr t (by decide)⟩,
   ⟨scheduled_congr t (by decide), scheduled_congr t (by decide)⟩,
   ⟨scheduled_congr t (by decide), scheduled_congr t (by decide)⟩,
   ⟨scheduled_congr t (by decide), scheduled_congr t (by decide),
    scheduled_congr t (by decide)⟩,
   ⟨scheduled_congr t (by decide), scheduled_congr t (by decide)⟩⟩

/-- C8: a field containing a token `int()` rejects makes `_parse_field`
raise, and a non-alias schedule that does not split into exactly five
space-separated fields makes `_scheduled` raise; neither ever returns a
value, so a malformed schedule is never reported as matching. -/
theorem c8_malformed_errors :
    (∀ field max : List Char,
      (∃ e ∈ pySplit ',' (replaceStar max field),
        ∃ tok ∈ pySplit ' ' (translateT e), pyInt tok = none) →
      parse_field field max = none) ∧
    (∀ (t : Timestamp) (s : List Char),
      isAlias (pyLower s) = false → (pySplit ' ' (pyLower s)).length ≠ 5 →
      scheduled t s = none) := by
  constructor
  · intro field max h
    obtain ⟨e, he, tok, htok, hnone⟩ := h
    unfold parse_field
    rw [mapOpt_eq_none he (pyRangeCall_none_of_bad_tok htok hnone)]
    rfl
  · intro t s hal hlen
    exact scheduled_none_of t hal hlen

/-- Witness for C8 at the claim's own examples. -/
theorem c8_malformed_errors_witness :
    parse_field ("abc".toList) ("0-59".toList) = none ∧
    scheduled fridayT ("0 0 1 1".toList) = none :=
  ⟨c8_malformed_errors.1 ("abc".toList) ("0-59".toList) (by decide),
   c8_malformed_errors.2 fridayT ("0 0 1 1".toList) (by decide) (by decide)⟩

/-- C9: `_parse_field` performs no bounds check on explicit literals: a lone
all-digit token parses to exactly its own value regardless of the bound
(so `99` in the minute field yields the set containing 99), while a literal
`*` is confined to the bound only because it is substituted by `min-max`. -/
theorem c9_no_bounds_check :
    (∀ (a max : List Char) (v : Int),
      (∀ c ∈ a, c.isDigit = true) → a ≠ [] → pyInt a = some v →
      parse_field a max = some [v]) ∧
    parse_field ("99".toList) ("0-59".toList) = some [99] ∧
    parse_field ("*".toList) ("0-59".toList) =
      some ((List.range 60).map (fun (i : Nat) => (i : Int))) := by
  refine ⟨?_, by decide, by decide⟩
  intro a max v hdig hne hv
  have hstar : '*' ∉ a := fun hm => (isDigit_ne_special (hdig _ hm)).2.1 rfl
  have hcomma : ',' ∉ a := fun hm => (isDigit_ne_special (hdig _ hm)).1 rfl
  have hspace : ' ' ∉ a := fun hm => (isDigit_ne_special (hdig _ hm)).2.2.2.2 rfl
  have hta : translateT a = a := translateT_eq_self (fun c hm =>
    ⟨(isDigit_ne_special (hdig c hm)).2.2.1, (isDigit_ne_special (hdig c hm)).2.2.2.1⟩)
  unfold parse_field
  rw [replaceStar_eq_self hstar, pySplit_not_mem hcomma]
  have hg : pyRangeCall (pySplit ' ' (translateT a)) = some [v] := by
    rw [hta, pySplit_not_mem hspace]
    simp [pyRangeCall, hv, pyRangeList_single]
  simp [mapOpt, hg]

/-- Witness for C9 at the claim's own example `99`. -/
theorem c9_no_bounds_check_witness :
    parse_field ("99".toList) ("0-23".toList) = some [99] :=
  c9_no_bounds_check.1 ("99".toList) ("0-23".toList) 99 (by decide) (by decide)
    (by decide)

/-- C10: fields joined by a tab or by two consecutive spaces do not split
into exactly five fields under the single-space split, so evaluation raises
instead of returning a boolean. -/
theorem c10_single_space_split :
    ∀ (f1 f2 f3 f4 f5 sep : List Char) (t : Timestamp),
      (sep = ['\t'] ∨ sep = [' ', ' ']) →
      ' ' ∉ f1 → ' ' ∉ f2 → ' ' ∉ f3 → ' ' ∉ f4 → ' ' ∉ f5 →
      scheduled t (f1 ++ sep ++ f2 ++ sep ++ f3 ++ sep ++ f4 ++ sep ++ f5) =
        none := by
  intro f1 f2 f3 f4 f5 sep t hsep h1 h2 h3 h4 h5
  rcases hsep with rfl | rfl
  · have hc0 : '\t' ∈ f1 ++ ['\t'] ++ f2 ++ ['\t'] ++ f3 ++ ['\t'] ++ f4 ++
        ['\t'] ++ f5 := by simp
    have hmem : '\t' ∈ pyLower (f1 ++ ['\t'] ++ f2 ++ ['\t'] ++ f3 ++ ['\t'] ++
        f4 ++ ['\t'] ++ f5) := by
      have hmap := List.mem_map_of_mem pyLowerChar hc0
      rw [show pyLowerChar '\x09' = '\x09' from rfl] at hmap
      exact hmap
    apply scheduled_none_of
    · unfold isAlias
      simp only [Bool.or_eq_false_iff, decide_eq_false_iff_not]
      refine ⟨⟨⟨⟨⟨⟨⟨?_, ?_⟩, ?_⟩, ?_⟩, ?_⟩, ?_⟩, ?_⟩, ?_⟩ <;>
        (intro heq; rw [heq] at hmem; revert hmem; decide)
    · rw [pySplit_length, count_space_pyLower]
      simp [List.count_append, List.count_eq_zero.mpr h1,
        List.count_eq_zero.mpr h2, List.count_eq_zero.mpr h3,
        List.count_eq_zero.mpr h4, List.count_eq_zero.mpr h5]
  · have hc0 : ' ' ∈ f1 ++ [' ', ' '] ++ f2 ++ [' ', ' '] ++ f3 ++ [' ', ' '] ++
        f4 ++ [' ', ' '] ++ f5 := by simp
    have hmem : ' ' ∈ pyLower (f1 ++ [' ', ' '] ++ f2 ++ [' ', ' '] ++ f3 ++
        [' ', ' '] ++ f4 ++ [' ', ' '] ++ f5) := by
      have hmap := List.mem_map_of_mem pyLowerChar hc0
      rw [show pyLowerChar ' ' = ' ' from rfl] at hmap
      exact hmap
    apply scheduled_none_of
    · unfold isAlias
      simp only [Bool.or_eq_false_iff, decide_eq_false_iff_not]
      refine ⟨⟨⟨⟨⟨⟨⟨?_, ?_⟩, ?_⟩, ?_⟩, ?_⟩, ?_⟩, ?_⟩, ?_⟩ <;>
        (intro heq; rw [heq] at hmem; revert hmem; decide)
    · rw [pySplit_length, count_space_pyLower]
      simp [List.count_append, List.count_eq_zero.mpr h1,
        List.count_eq_zero.mpr h2, List.count_eq_zero.mpr h3,
        List.count_eq_zero.mpr h4, List.count_eq_zero.mpr h5,
        List.count_cons]

/-- Witness for C10: the four-space schedule written with tabs errors out. -/
theorem c10_single_space_split_witness :
    scheduled fridayT ("0".toList ++ ['\t'] ++ "0".toList ++ ['\t'] ++
      "1".toList ++ ['\t'] ++ "1".toList ++ ['\t'] ++ "*".toList) = none :=
  c10_single_space_split ("0".toList) ("0".toList) ("1".toList) ("1".toList)
    ("*".toList) ['\t'] fridayT (Or.inl rfl) (by decide) (by decide) (by decide)
    (by decide) (by decide)

example : parse_field ("1-5".toList) ("0-59".toList) = some [1, 2, 3, 4, 5] := by decide

example : parse_field ("*/15".toList) ("0-59".toList) = some [0, 15, 30, 45] := by decide

example : parse_field ("1,3,5-7".toList) ("0-59".toList) = some [1, 3, 5, 6, 7] := by decide

end EC2Sched
